import Mathlib

/-!
Shallow embedding of `kits19cnn/io/dataset_onthefly.py` (classes
`SliceDatasetOnTheFly` and `PseudoSliceDatasetOnTheFly`).

Modelling conventions:
* Python floats are modelled as `ℚ` (exact values; the claims under study are
  about exact comparisons, list membership and control flow, not rounding).
* A numpy 2D array is a `List (List ℚ)` (rows of cells); a channel-last 3D
  array of shape (H, W, C) is a `List (List (List ℚ))` whose innermost lists
  are the C channel values of one pixel.
* Python dicts (`pos_slice_dict` and its per-case values) are association
  lists in insertion order; `list(d.keys())[0]` is the head key.
* The filesystem is a map from (case folder, slice index) to the stored
  array, `Option`-valued; `os.path.isfile` is `Option.isSome` and `np.load`
  fails on `none`.  The on-disk file name `imaging_<idx>.npy` is produced by
  the external helper `parse_slice_idx_to_str` (not part of this repository;
  per the spec its encoding round-trips, hence is injective), so keying the
  filesystem directly by the integer slice index is faithful.
* The process-wide random source is modelled by passing the drawn values
  explicitly: `r : ℚ` with `0 ≤ r < 1` is the uniform variate consumed by the
  weighted `np.random.choice(classes, p=...)`, and `k : Nat` is the raw draw
  consumed by the uniform `np.random.choice(slice_indices)`, reduced modulo
  the list length to the selected position.
* A raised Python exception is `Except.error` carrying the exception class;
  `return None` (falling off the end of a function) is `Except.ok none` where
  the result type is an `Option`.
-/

namespace Kits19

/-- A numpy 2D array: rows of rational cells. -/
abbrev Img2 := List (List ℚ)

/-- A channel-last numpy 3D array of shape (H, W, C): rows of pixels, each
pixel a list of C channel values. -/
abbrev Arr3 := List (List (List ℚ))

/-- Python exception classes that the embedded code can raise. -/
inductive DsError where
  | indexError
  | keyError
  | valueError
  | storageError
  | assertionError
  | typeError
  deriving DecidableEq, Repr

/-- Decidable equality for `Except` results, so that concrete runs of the
embedded operations can be checked by evaluation. -/
instance exceptDecEq {ε α : Type} [DecidableEq ε] [DecidableEq α] :
    DecidableEq (Except ε α)
  | .error a, .error b =>
    if h : a = b then .isTrue (by rw [h])
    else .isFalse (fun hh => h (Except.error.inj hh))
  | .error _, .ok _ => .isFalse (fun hh => Except.noConfusion hh)
  | .ok _, .error _ => .isFalse (fun hh => Except.noConfusion hh)
  | .ok a, .ok b =>
    if h : a = b then .isTrue (by rw [h])
    else .isFalse (fun hh => h (Except.ok.inj hh))

/-- Tensor dtypes relevant to the façade: `.float()` produces `float`,
`.long()` produces `long`, anything else is `other`. -/
inductive DType where
  | float
  | long
  | other
  deriving DecidableEq, Repr

/-- A torch tensor: a dtype tag plus the underlying channel-last data. -/
structure Tensor where
  dt : DType
  data : Arr3
  deriving DecidableEq, Repr

/-- A value flowing through the transform pipeline: either still a raw numpy
array (with its dtype) or already a torch tensor. -/
inductive PyVal where
  | ndarray (dt : DType) (a : Arr3)
  | tensor (t : Tensor)
  deriving DecidableEq, Repr

/-- `torch.from_numpy(x) if isinstance(x, np.ndarray) else x`: a raw array is
wrapped into a tensor of the same dtype and data; a tensor passes through
unchanged. -/
def toTensorIfArray : PyVal → Tensor
  | .ndarray dt a => ⟨dt, a⟩
  | .tensor t => t

/-- Tensor method `.float()`: cast to the floating dtype. -/
def Tensor.toFloat (t : Tensor) : Tensor := ⟨.float, t.data⟩

/-- Tensor method `.long()`: cast to the integer label dtype. -/
def Tensor.toLong (t : Tensor) : Tensor := ⟨.long, t.data⟩

/-- The slice files on disk: for each case folder and integer slice index,
the imaging and segmentation arrays, when the corresponding file exists. -/
structure FS where
  imaging : String → Int → Option Img2
  segmentation : String → Int → Option Img2

/-- Per-case value of `pos_slice_dict`: class label → slice indices. -/
abbrev ClassMap := List (String × List Int)

/-- `pos_slice_dict`: case folder name → per-class slice indices. -/
abbrev Catalog := List (String × ClassMap)

/-- A transform or preprocessing callable: takes image and mask, returns the
transformed (image, mask) pair. -/
abbrev Tf := PyVal → PyVal → PyVal × PyVal

/-- Python/numpy sequence indexing `l[i]`: a negative index counts from the
end; out of `[-len(l), len(l))` raises `IndexError`. -/
def pyGetElem {α : Type} (l : List α) (i : Int) : Except DsError α :=
  let j : Int := if i < 0 then i + l.length else i
  if 0 ≤ j then
    match l.get? j.toNat with
    | some a => .ok a
    | none => .error .indexError
  else
    .error .indexError

/-- Python dict lookup `d[k]`: `KeyError` when the key is absent. -/
def dictGet {β : Type} (m : List (String × β)) (k : String) : Except DsError β :=
  match m.lookup k with
  | some v => .ok v
  | none => .error .keyError

/-- Position selected by a categorical draw with weights `p` from the uniform
variate `r`: the least `i` with `r < p 0 + ... + p i` (equals `p.length` when
`r` is at least the total weight). -/
def categoricalIdx : List ℚ → ℚ → Nat
  | [], _ => 0
  | q :: rest, r => if r < q then 0 else categoricalIdx rest (r - q) + 1

/-- `np.random.choice(xs, p=p)` fed by the uniform variate `r`: validates
that the weights match the population and are non-negative, then selects by
cumulative weight.  (numpy additionally checks the weights sum to 1; at every
call site in this file the constructor has already asserted exactly that.) -/
def np_choice_weighted (xs : List String) (p : List ℚ) (r : ℚ) :
    Except DsError String :=
  if xs.length ≠ p.length then .error .valueError
  else if ¬ (p.all fun q => 0 ≤ q) then .error .valueError
  else
    match xs.get? (categoricalIdx p r) with
    | some c => .ok c
    | none => .error .valueError

/-- `np.random.choice(l)` (uniform) fed by the raw draw `k`: raises
`ValueError` on an empty population, else selects position `k % len(l)`. -/
def np_choice_uniform (l : List Int) (k : Nat) : Except DsError Int :=
  if h : l.length = 0 then .error .valueError
  else .ok (l.get ⟨k % l.length, Nat.mod_lt k (Nat.pos_of_ne_zero h)⟩)

/-- `np.load` on a path that may not exist: a missing or unreadable file
raises (FileNotFoundError, modelled as `storageError`). -/
def np_load (f : Option Img2) : Except DsError Img2 :=
  match f with
  | some a => .ok a
  | none => .error .storageError

/-- Numpy `a[:, :, None]`: append a trailing singleton channel dimension,
turning an (H, W) array into an (H, W, 1) array. -/
def addChannel (a : Img2) : Arr3 := a.map fun row => row.map fun v => [v]

/-- The state of a constructed `SliceDatasetOnTheFly`. -/
structure SliceDataset where
  im_ids : List String
  in_dir : String
  pos_slice_dict : Catalog
  transforms : Option Tf
  preprocessing : Option Tf
  sampling_distribution : List ℚ
  classes : List String

/-- `SliceDatasetOnTheFly.__init__`: records the arguments, asserts that the
sampling distribution sums to exactly 1 (`np.sum(...) == 1`), then
`log_class_indices` reads `list(pos_slice_dict.keys())[0]` (IndexError on an
empty dict) and stores that first entry's class keys as `self.classes`. -/
def mkSliceDataset (im_ids : List String) (in_dir : String)
    (pos_slice_dict : Catalog) (transforms preprocessing : Option Tf)
    (sampling_distribution : List ℚ) : Except DsError SliceDataset :=
  if sampling_distribution.sum = 1 then
    match pos_slice_dict with
    | [] => .error .indexError
    | (_, firstMap) :: _ =>
        .ok ⟨im_ids, in_dir, pos_slice_dict, transforms, preprocessing,
             sampling_distribution, firstMap.map Prod.fst⟩
  else .error .assertionError

/-- `SliceDatasetOnTheFly.get_slice_idx`: draw a class from `self.classes`
weighted by `self.sampling_distribution`, look up
`self.pos_slice_dict[case_raw][sampled_class]`, and draw uniformly from that
list. -/
def SliceDataset.get_slice_idx (d : SliceDataset) (r : ℚ) (k : Nat)
    (case_raw : String) : Except DsError Int := do
  let sampled_class ← np_choice_weighted d.classes d.sampling_distribution r
  let caseMap ← dictGet d.pos_slice_dict case_raw
  let slice_indices ← dictGet caseMap sampled_class
  np_choice_uniform slice_indices k

/-- `SliceDatasetOnTheFly.load_slices`: draw a slice index, then load
`imaging_<idx>.npy` and `segmentation_<idx>.npy` from the case folder, each
reshaped to (H, W, 1). -/
def SliceDataset.load_slices (d : SliceDataset) (fs : FS) (r : ℚ) (k : Nat)
    (case_raw : String) : Except DsError (Arr3 × Arr3) := do
  let slice_idx ← d.get_slice_idx r k case_raw
  let x ← np_load (fs.imaging case_raw slice_idx)
  let y ← np_load (fs.segmentation case_raw slice_idx)
  return (addChannel x, addChannel y)

/-- `SliceDatasetOnTheFly.apply_transforms_and_preprocessing`: apply the
optional transform stage, then the optional preprocessing stage. -/
def SliceDataset.apply_tp (d : SliceDataset) (x y : PyVal) : PyVal × PyVal :=
  let p1 := match d.transforms with
    | some f => f x y
    | none => (x, y)
  match d.preprocessing with
  | some f => f p1.1 p1.2
  | none => p1

/-- `SliceDatasetOnTheFly.__getitem__`: resolve the case id by (numpy)
indexing into `im_ids`, load the slice pair, run transforms/preprocessing,
convert arrays to tensors, and return `(x.float(), y.long())`. -/
def SliceDataset.getItem (d : SliceDataset) (fs : FS) (r : ℚ) (k : Nat)
    (idx : Int) : Except DsError (Tensor × Tensor) := do
  let case_id ← pyGetElem d.im_ids idx
  let (xa, ya) ← d.load_slices fs r k case_id
  let p := d.apply_tp (.ndarray .other xa) (.ndarray .other ya)
  let xt := toTensorIfArray p.1
  let yt := toTensorIfArray p.2
  return (xt.toFloat, yt.toLong)

/-- `SliceDatasetOnTheFly.__len__`: the number of case identifiers. -/
def SliceDataset.len (d : SliceDataset) : Nat := d.im_ids.length

/-- The state of a constructed `PseudoSliceDatasetOnTheFly`. -/
structure PseudoSliceDataset extends SliceDataset where
  num_pseudo_slices : Int

/-- `PseudoSliceDatasetOnTheFly.__init__`: run the parent constructor first,
record `num_pseudo_slices`, then assert `num_pseudo_slices % 2 == 1` (Python
`%` on a positive modulus is the Euclidean remainder `Int.emod`). -/
def mkPseudoSliceDataset (im_ids : List String) (in_dir : String)
    (pos_slice_dict : Catalog) (transforms preprocessing : Option Tf)
    (sampling_distribution : List ℚ) (num_pseudo_slices : Int) :
    Except DsError PseudoSliceDataset := do
  let base ← mkSliceDataset im_ids in_dir pos_slice_dict transforms
    preprocessing sampling_distribution
  if num_pseudo_slices.emod 2 = 1 then
    return ⟨base, num_pseudo_slices⟩
  else
    .error .assertionError

/-- Python `range(lo, hi)` over integers. -/
def intRange (lo hi : Int) : List Int :=
  (List.range (hi - lo).toNat).map fun (n : Nat) => lo + (n : Int)

/-- `np.zeros((H, W, C))`: channel-last all-zero 3D array. -/
def zeros3 (H W C : Nat) : Arr3 :=
  List.replicate H (List.replicate W (List.replicate C (0 : ℚ)))

/-- Shape test for a 2D array: H rows, each of W cells. -/
def shapeOk (a : Img2) (H W : Nat) : Bool :=
  a.length = H && a.all fun row => row.length = W

/-- Numpy slice assignment `arr[:, :, c] = img`: write `img` into channel `c`
of the channel-last 3D array `arr`. -/
def writeChannel (arr : Arr3) (c : Nat) (img : Img2) : Arr3 :=
  List.zipWith (fun row irow =>
    List.zipWith (fun cell v => cell.set c v) row irow) arr img

/-- Channel `c` of a channel-last 3D array, read as a 2D array (missing
positions read as 0, matching a freshly zeroed buffer). -/
def getChannel (arr : Arr3) (c : Nat) : Img2 :=
  arr.map fun row => row.map fun cell => cell.getD c 0

/-- Shape statement for a channel-last 3D array: H rows, each of W pixels,
each pixel holding C channel values. -/
def Dims3 (arr : Arr3) (H W C : Nat) : Prop :=
  arr.length = H ∧ ∀ row ∈ arr, row.length = W ∧ ∀ cell ∈ row, cell.length = C

/-- One iteration of the neighbor-window loop in
`PseudoSliceDatasetOnTheFly.load_slices`, at loop position `p.1` and slice
index `p.2`: `if os.path.isfile(x_path): x_arr[:, :, idx] = np.load(x_path)`.
The numpy slice assignment requires the loaded array to have the buffer's
(H, W) shape (otherwise numpy raises a broadcast `ValueError`). -/
def fillStep (fs : FS) (case_raw : String) (H W : Nat) (arr : Arr3)
    (p : Nat × Int) : Except DsError Arr3 :=
  match fs.imaging case_raw p.2 with
  | some img =>
      if shapeOk img H W then .ok (writeChannel arr p.1 img)
      else .error .valueError
  | none => .ok arr

/-- The neighbor-window loop
`for idx, slice_idx in enumerate(range(lo, hi)): ...` folded over the
enumerated slice indices. -/
def fillLoop (fs : FS) (case_raw : String) (H W : Nat)
    (l : List (Nat × Int)) (init : Arr3) : Except DsError Arr3 :=
  l.foldlM (fillStep fs case_raw H W) init

/-- `PseudoSliceDatasetOnTheFly.load_slices`: draw the center slice index,
compute the window bounds with Python floor division
`(num_pseudo_slices - 1) // 2`, load the center image and mask (reshaped to
(H, W, 1)), then: window size 1 returns the center pair; window size above 1
fills a zeroed (H, W, num_pseudo_slices) buffer channel by channel from the
neighbor files that exist; any other window size falls off the end of the
Python function, returning `None`. -/
def PseudoSliceDataset.load_slices (d : PseudoSliceDataset) (fs : FS)
    (r : ℚ) (k : Nat) (case_raw : String) :
    Except DsError (Option (Arr3 × Arr3)) := do
  let center_slice_idx ← d.toSliceDataset.get_slice_idx r k case_raw
  let lo := center_slice_idx - (d.num_pseudo_slices - 1).fdiv 2
  let hi := center_slice_idx + (d.num_pseudo_slices - 1).fdiv 2 + 1
  let cx ← np_load (fs.imaging case_raw center_slice_idx)
  let cy ← np_load (fs.segmentation case_raw center_slice_idx)
  let center_x := addChannel cx
  let center_y := addChannel cy
  if d.num_pseudo_slices = 1 then
    return some (center_x, center_y)
  else if 1 < d.num_pseudo_slices then do
    let H := cx.length
    let W := (cx.headD []).length
    let x_arr ← fillLoop fs case_raw H W ((intRange lo hi).enum)
      (zeros3 H W d.num_pseudo_slices.toNat)
    return some (x_arr, center_y)
  else
    return none

/-- `__getitem__` of the pseudo-volume dataset: the method is inherited from
`SliceDatasetOnTheFly` unchanged, but `self.load_slices` dispatches to the
overridden pseudo-volume loader.  The tuple unpacking
`x, y = self.load_slices(case_id)` raises a TypeError when that loader
returns `None` (cannot unpack a non-iterable NoneType). -/
def PseudoSliceDataset.getItem (d : PseudoSliceDataset) (fs : FS) (r : ℚ)
    (k : Nat) (idx : Int) : Except DsError (Tensor × Tensor) := do
  let case_id ← pyGetElem d.toSliceDataset.im_ids idx
  let res ← d.load_slices fs r k case_id
  match res with
  | none => .error .typeError
  | some (xa, ya) =>
    let p := d.toSliceDataset.apply_tp (.ndarray .other xa)
      (.ndarray .other ya)
    pure ((toTensorIfArray p.1).toFloat, (toTensorIfArray p.2).toLong)

/-!
Stateful view of the same methods, for the frame properties: `self` and the
process-wide random source are threaded through every statement, so that a
field assignment or an extra draw would show up in the returned state.  The
random source is a pair of streams: the uniform variates consumed by weighted
`np.random.choice` calls and the raw draws consumed by uniform ones; each
call pops the front of its stream.
-/

/-- The process-wide random source: pending uniform variates (for weighted
choices) and pending raw draws (for uniform choices). -/
structure Rng where
  rs : List ℚ
  ks : List Nat
  deriving DecidableEq, Repr

/-- Stateful `get_slice_idx`: each statement of the Python body, threading
`self` and the random source. -/
def SliceDataset.get_slice_idxSt (d : SliceDataset) (rng : Rng)
    (case_raw : String) : Except DsError Int × SliceDataset × Rng :=
  match np_choice_weighted d.classes d.sampling_distribution
      (rng.rs.headD 0) with
  | .error e => (.error e, d, ⟨rng.rs.tail, rng.ks⟩)
  | .ok sampled_class =>
    match dictGet d.pos_slice_dict case_raw with
    | .error e => (.error e, d, ⟨rng.rs.tail, rng.ks⟩)
    | .ok caseMap =>
      match dictGet caseMap sampled_class with
      | .error e => (.error e, d, ⟨rng.rs.tail, rng.ks⟩)
      | .ok slice_indices =>
        (np_choice_uniform slice_indices (rng.ks.headD 0), d,
         ⟨rng.rs.tail, rng.ks.tail⟩)

/-- Stateful `load_slices` (single-slice variant). -/
def SliceDataset.load_slicesSt (d : SliceDataset) (fs : FS) (rng : Rng)
    (case_raw : String) : Except DsError (Arr3 × Arr3) × SliceDataset × Rng :=
  match d.get_slice_idxSt rng case_raw with
  | (.error e, d1, rng1) => (.error e, d1, rng1)
  | (.ok slice_idx, d1, rng1) =>
    match np_load (fs.imaging case_raw slice_idx) with
    | .error e => (.error e, d1, rng1)
    | .ok x =>
      match np_load (fs.segmentation case_raw slice_idx) with
      | .error e => (.error e, d1, rng1)
      | .ok y => (.ok (addChannel x, addChannel y), d1, rng1)

/-- Stateful `__getitem__`. -/
def SliceDataset.getItemSt (d : SliceDataset) (fs : FS) (rng : Rng)
    (idx : Int) : Except DsError (Tensor × Tensor) × SliceDataset × Rng :=
  match pyGetElem d.im_ids idx with
  | .error e => (.error e, d, rng)
  | .ok case_id =>
    match d.load_slicesSt fs rng case_id with
    | (.error e, d1, rng1) => (.error e, d1, rng1)
    | (.ok (xa, ya), d1, rng1) =>
      let p := d1.apply_tp (.ndarray .other xa) (.ndarray .other ya)
      let xt := toTensorIfArray p.1
      let yt := toTensorIfArray p.2
      (.ok (xt.toFloat, yt.toLong), d1, rng1)

/-- Stateful `__len__`. -/
def SliceDataset.lenSt (d : SliceDataset) (rng : Rng) :
    Nat × SliceDataset × Rng :=
  (d.im_ids.length, d, rng)

/-- Stateful `load_slices` (pseudo-volume variant): only the center-index
draw touches the random source; the dataset is threaded through unchanged. -/
def PseudoSliceDataset.load_slicesSt (d : PseudoSliceDataset) (fs : FS)
    (rng : Rng) (case_raw : String) :
    Except DsError (Option (Arr3 × Arr3)) × PseudoSliceDataset × Rng :=
  match d.toSliceDataset.get_slice_idxSt rng case_raw with
  | (.error e, d1, rng1) => (.error e, ⟨d1, d.num_pseudo_slices⟩, rng1)
  | (.ok center_slice_idx, d1, rng1) =>
    match np_load (fs.imaging case_raw center_slice_idx) with
    | .error e => (.error e, ⟨d1, d.num_pseudo_slices⟩, rng1)
    | .ok cx =>
      match np_load (fs.segmentation case_raw center_slice_idx) with
      | .error e => (.error e, ⟨d1, d.num_pseudo_slices⟩, rng1)
      | .ok cy =>
        if d.num_pseudo_slices = 1 then
          (.ok (some (addChannel cx, addChannel cy)),
           ⟨d1, d.num_pseudo_slices⟩, rng1)
        else if 1 < d.num_pseudo_slices then
          match fillLoop fs case_raw cx.length (cx.headD []).length
            ((intRange
              (center_slice_idx - (d.num_pseudo_slices - 1).fdiv 2)
              (center_slice_idx + (d.num_pseudo_slices - 1).fdiv 2 + 1)).enum)
            (zeros3 cx.length (cx.headD []).length
              d.num_pseudo_slices.toNat) with
          | .error e => (.error e, ⟨d1, d.num_pseudo_slices⟩, rng1)
          | .ok x_arr => (.ok (some (x_arr, addChannel cy)),
              ⟨d1, d.num_pseudo_slices⟩, rng1)
        else
          (.ok none, ⟨d1, d.num_pseudo_slices⟩, rng1)

/-!
Concrete instances used by the example theorems below.
-/

/-- The catalog of the golden-test scenario from the spec. -/
def cat7 : Catalog :=
  [("case01", [("bg", [0, 1, 2]), ("kidney", [5, 6]), ("tumor", [7])])]

/-- The dataset constructed from `cat7` with sampling distribution
[0, 0, 1]. -/
def d7 : SliceDataset :=
  ⟨["case01"], "data", cat7, none, none, [0, 0, 1],
   ["bg", "kidney", "tumor"]⟩

/-- A one-pixel filesystem where only slice 7 of case01 exists. -/
def fsEx : FS :=
  ⟨fun c i => if c = "case01" ∧ i = 7 then some [[1]] else none,
   fun c i => if c = "case01" ∧ i = 7 then some [[2]] else none⟩

/-- A filesystem where case01 has imaging slices 6 and 7 only (slice 8 is
missing), each of shape (1, 1), plus the segmentation of slice 7. -/
def fsWin2 : FS :=
  ⟨fun c i =>
     if c = "case01" ∧ i = 6 then some [[6]]
     else if c = "case01" ∧ i = 7 then some [[7]]
     else none,
   fun c i => if c = "case01" ∧ i = 7 then some [[2]] else none⟩

/-- Pseudo-volume dataset over `d7` with window size 1. -/
def pd1 : PseudoSliceDataset := ⟨d7, 1⟩

/-- Pseudo-volume dataset over `d7` with window size 3. -/
def pd3 : PseudoSliceDataset := ⟨d7, 3⟩

/-- Pseudo-volume dataset over `d7` with window size -3. -/
def pdm3 : PseudoSliceDataset := ⟨d7, -3⟩

/-! Helper lemmas. -/

theorem except_bind_ok {ε α β : Type} (a : α) (f : α → Except ε β) :
    (Except.ok a >>= f : Except ε β) = f a := rfl

theorem except_bind_error {ε α β : Type} (e : ε) (f : α → Except ε β) :
    (Except.error e >>= f : Except ε β) = .error e := rfl

theorem pyGetElem_error_iff {α : Type} (l : List α) (i : Int) :
    pyGetElem l i = .error .indexError ↔
      i < -(l.length : Int) ∨ (l.length : Int) ≤ i := by
  unfold pyGetElem
  by_cases hi : i < 0
  · simp only [if_pos hi]
    by_cases hj : (0 : Int) ≤ i + l.length
    · simp only [if_pos hj]
      have hlt : (i + (l.length : Int)).toNat < l.length := by omega
      rw [List.get?_eq_get hlt]
      simp only [reduceCtorEq, false_iff]
      omega
    · simp only [if_neg hj, true_iff]
      omega
  · simp only [if_neg hi]
    have h0 : (0 : Int) ≤ i := by omega
    simp only [if_pos h0]
    rcases Nat.lt_or_ge i.toNat l.length with hlt | hge
    · rw [List.get?_eq_get hlt]
      simp only [reduceCtorEq, false_iff]
      omega
    · rw [List.get?_eq_none.mpr hge]
      simp only [true_iff]
      omega

theorem pyGetElem_ok_of_get? {α : Type} (l : List α) (n : Nat) (a : α)
    (h : l.get? n = some a) : pyGetElem l (n : Int) = .ok a := by
  unfold pyGetElem
  have hn : ¬ ((n : Int) < 0) := by omega
  simp only [if_neg hn, if_pos (by omega : (0 : Int) ≤ (n : Int))]
  rw [Int.toNat_ofNat, h]

theorem np_choice_weighted_error (xs : List String) (p : List ℚ) (r : ℚ)
    (e : DsError) (h : np_choice_weighted xs p r = .error e) :
    e = .valueError := by
  unfold np_choice_weighted at h
  split at h
  · exact (Except.error.inj h).symm
  · split at h
    · exact (Except.error.inj h).symm
    · split at h
      · exact absurd h (by simp)
      · exact (Except.error.inj h).symm

theorem np_choice_uniform_error (l : List Int) (k : Nat) (e : DsError)
    (h : np_choice_uniform l k = .error e) : e = .valueError := by
  unfold np_choice_uniform at h
  split at h
  · exact (Except.error.inj h).symm
  · exact absurd h (by simp)

theorem dictGet_error {β : Type} (m : List (String × β)) (key : String)
    (e : DsError) (h : dictGet m key = .error e) : e = .keyError := by
  unfold dictGet at h
  split at h
  · exact absurd h (by simp)
  · exact (Except.error.inj h).symm

theorem np_load_error (f : Option Img2) (e : DsError)
    (h : np_load f = .error e) : e = .storageError := by
  unfold np_load at h
  split at h
  · exact absurd h (by simp)
  · exact (Except.error.inj h).symm

theorem get_slice_idx_ne_indexError (d : SliceDataset) (r : ℚ) (k : Nat)
    (c : String) : d.get_slice_idx r k c ≠ .error .indexError := by
  intro h
  unfold SliceDataset.get_slice_idx at h
  rcases hw : np_choice_weighted d.classes d.sampling_distribution r with e | cl
  · rw [hw] at h
    simp only [except_bind_error] at h
    cases np_choice_weighted_error _ _ _ _ hw
    simp at h
  · rw [hw] at h
    simp only [except_bind_ok] at h
    rcases hm : dictGet d.pos_slice_dict c with e | cm
    · rw [hm] at h
      simp only [except_bind_error] at h
      cases dictGet_error _ _ _ hm
      simp at h
    · rw [hm] at h
      simp only [except_bind_ok] at h
      rcases hs : dictGet cm cl with e | si
      · rw [hs] at h
        simp only [except_bind_error] at h
        cases dictGet_error _ _ _ hs
        simp at h
      · rw [hs] at h
        simp only [except_bind_ok] at h
        exact absurd (np_choice_uniform_error _ _ _ h) (by simp)

theorem load_slices_ne_indexError (d : SliceDataset) (fs : FS) (r : ℚ)
    (k : Nat) (c : String) :
    d.load_slices fs r k c ≠ .error .indexError := by
  intro h
  unfold SliceDataset.load_slices at h
  rcases hi : d.get_slice_idx r k c with e | si
  · rw [hi] at h
    simp only [except_bind_error] at h
    exact get_slice_idx_ne_indexError d r k c (hi.trans (congrArg _ (Except.error.inj h)))
  · rw [hi] at h
    simp only [except_bind_ok] at h
    rcases hx : np_load (fs.imaging c si) with e | x
    · rw [hx] at h
      simp only [except_bind_error] at h
      cases np_load_error _ _ hx
      exact absurd (Except.error.inj h) (by simp)
    · rw [hx] at h
      simp only [except_bind_ok] at h
      rcases hy : np_load (fs.segmentation c si) with e | y
      · rw [hy] at h
        simp only [except_bind_error] at h
        cases np_load_error _ _ hy
        exact absurd (Except.error.inj h) (by simp)
      · rw [hy] at h
        simp only [except_bind_ok] at h
        exact Except.noConfusion h

theorem fillStep_error (fs : FS) (c : String) (H W : Nat) (arr : Arr3)
    (p : Nat × Int) (e : DsError) (h : fillStep fs c H W arr p = .error e) :
    e = .valueError := by
  unfold fillStep at h
  split at h
  · split at h
    · exact absurd h (by simp)
    · exact (Except.error.inj h).symm
  · exact absurd h (by simp)

theorem fillLoop_ne_indexError (fs : FS) (c : String) (H W : Nat)
    (l : List (Nat × Int)) (arr : Arr3) :
    fillLoop fs c H W l arr ≠ .error .indexError := by
  induction l generalizing arr with
  | nil =>
    intro h
    exact Except.noConfusion h
  | cons p t ih =>
    intro h
    unfold fillLoop at h
    simp only [List.foldlM] at h
    rcases hs : fillStep fs c H W arr p with e | a <;> rw [hs] at h
    · rw [except_bind_error] at h
      cases fillStep_error fs c H W arr p e hs
      simp at h
    · rw [except_bind_ok] at h
      exact ih a h

theorem except_bind_pure_error {ε α β : Type} (X : Except ε α) (f : α → β)
    (e : ε) (h : (X >>= fun a => pure (f a)) = .error e) : X = .error e := by
  rcases hx : X with e2 | a <;> rw [hx] at h
  · rw [except_bind_error] at h
    exact congrArg Except.error (Except.error.inj h)
  · rw [except_bind_ok] at h
    exact Except.noConfusion h

theorem pseudo_load_slices_ne_indexError (d : PseudoSliceDataset) (fs : FS)
    (r : ℚ) (k : Nat) (c : String) :
    d.load_slices fs r k c ≠ .error .indexError := by
  intro h
  unfold PseudoSliceDataset.load_slices at h
  rcases hg : d.toSliceDataset.get_slice_idx r k c with e | si <;>
    rw [hg] at h
  · simp only [except_bind_error] at h
    exact get_slice_idx_ne_indexError _ r k c
      (hg.trans (congrArg _ (Except.error.inj h)))
  · simp only [except_bind_ok] at h
    rcases hx : np_load (fs.imaging c si) with e | cx <;> rw [hx] at h
    · simp only [except_bind_error] at h
      cases np_load_error _ _ hx
      simp at h
    · simp only [except_bind_ok] at h
      rcases hy : np_load (fs.segmentation c si) with e | cy <;> rw [hy] at h
      · simp only [except_bind_error] at h
        cases np_load_error _ _ hy
        simp at h
      · simp only [except_bind_ok] at h
        by_cases h1 : d.num_pseudo_slices = 1
        · rw [if_pos h1] at h
          exact Except.noConfusion h
        · rw [if_neg h1] at h
          by_cases h2 : 1 < d.num_pseudo_slices
          · rw [if_pos h2] at h
            exact fillLoop_ne_indexError _ _ _ _ _ _
              (except_bind_pure_error _ _ _ h)
          · rw [if_neg h2] at h
            exact Except.noConfusion h

theorem categoricalIdx_lt_length (p : List ℚ) (r : ℚ) (h0 : 0 ≤ r)
    (hr : r < p.sum) : categoricalIdx p r < p.length := by
  induction p generalizing r with
  | nil => simp at hr; linarith
  | cons q rest ih =>
    unfold categoricalIdx
    by_cases h : r < q
    · simp [h]
    · simp only [if_neg h, List.length_cons, Nat.add_lt_add_iff_right]
      refine ih (r - q) (by linarith [not_lt.mp h]) ?_
      simp only [List.sum_cons] at hr
      linarith

theorem categoricalIdx_getD_pos (p : List ℚ) (r : ℚ) (h0 : 0 ≤ r)
    (hr : r < p.sum) : 0 < p.getD (categoricalIdx p r) 0 := by
  induction p generalizing r with
  | nil => simp at hr; linarith
  | cons q rest ih =>
    unfold categoricalIdx
    by_cases h : r < q
    · simp only [if_pos h, List.getD_cons_zero]
      linarith
    · simp only [if_neg h, List.getD_cons_succ]
      refine ih (r - q) (by linarith [not_lt.mp h]) ?_
      simp only [List.sum_cons] at hr
      linarith

theorem getD_set_self (l : List ℚ) (c : Nat) (v : ℚ) (h : c < l.length) :
    (l.set c v).getD c 0 = v := by
  induction l generalizing c with
  | nil => simp at h
  | cons a t ih =>
    cases c with
    | zero => simp
    | succ m => simpa using ih m (by simpa using h)

theorem getD_set_ne (l : List ℚ) (c j : Nat) (v : ℚ) (hne : j ≠ c) :
    (l.set c v).getD j 0 = l.getD j 0 := by
  induction l generalizing c j with
  | nil => simp
  | cons a t ih =>
    cases c with
    | zero =>
      cases j with
      | zero => exact absurd rfl hne
      | succ m => simp
    | succ m =>
      cases j with
      | zero => simp
      | succ o => simpa using ih m o (fun hh => hne (by omega))

theorem row_write_read_self (row : List (List ℚ)) (irow : List ℚ) (c : Nat)
    (hlen : row.length = irow.length) (hc : ∀ cell ∈ row, c < cell.length) :
    (List.zipWith (fun cell v => cell.set c v) row irow).map
      (fun cell => cell.getD c 0) = irow := by
  induction row generalizing irow with
  | nil =>
    cases irow with
    | nil => rfl
    | cons b s => simp at hlen
  | cons a t ih =>
    cases irow with
    | nil => simp at hlen
    | cons b s =>
      simp only [List.zipWith_cons_cons, List.map_cons]
      rw [getD_set_self a c b (hc a (by simp)),
        ih s (by simpa using hlen) (fun cell hcell => hc cell (by simp [hcell]))]

theorem row_write_read_ne (row : List (List ℚ)) (irow : List ℚ) (c j : Nat)
    (hlen : row.length = irow.length) (hne : j ≠ c) :
    (List.zipWith (fun cell v => cell.set c v) row irow).map
      (fun cell => cell.getD j 0) = row.map (fun cell => cell.getD j 0) := by
  induction row generalizing irow with
  | nil =>
    cases irow with
    | nil => rfl
    | cons b s => simp at hlen
  | cons a t ih =>
    cases irow with
    | nil => simp at hlen
    | cons b s =>
      simp only [List.zipWith_cons_cons, List.map_cons]
      rw [getD_set_ne a c j b hne, ih s (by simpa using hlen)]

theorem shapeOk_eq_true_iff (a : Img2) (H W : Nat) :
    shapeOk a H W = true ↔ a.length = H ∧ ∀ row ∈ a, row.length = W := by
  simp [shapeOk, List.all_eq_true]

theorem getD_replicate_zero (n c : Nat) :
    (List.replicate n (0 : ℚ)).getD c 0 = 0 := by
  rcases Nat.lt_or_ge c n with h | h
  · rw [List.getD, List.get?_eq_get (by simpa using h)]
    simp
  · rw [List.getD, List.get?_eq_none.mpr (by simpa using h)]
    rfl

theorem dims3_zeros3 (H W C : Nat) : Dims3 (zeros3 H W C) H W C := by
  refine ⟨by simp [zeros3], ?_⟩
  intro row hrow
  rw [List.eq_of_mem_replicate hrow]
  refine ⟨by simp, ?_⟩
  intro cell hcell
  rw [List.eq_of_mem_replicate hcell]
  simp

theorem getChannel_zeros3 (H W C c : Nat) :
    getChannel (zeros3 H W C) c = List.replicate H (List.replicate W 0) := by
  simp [getChannel, zeros3, List.map_replicate, getD_replicate_zero]

theorem mem_zipWith_set (row : List (List ℚ)) (irow : List ℚ) (c : Nat)
    (cell2 : List ℚ)
    (h : cell2 ∈ List.zipWith (fun cell v => cell.set c v) row irow) :
    ∃ cell ∈ row, cell2.length = cell.length := by
  induction row generalizing irow with
  | nil => simp at h
  | cons a t ih =>
    cases irow with
    | nil => simp at h
    | cons b s =>
      simp only [List.zipWith_cons_cons, List.mem_cons] at h
      rcases h with h | h
      · exact ⟨a, by simp, by simp [h]⟩
      · obtain ⟨cell, hc1, hc2⟩ := ih s h
        exact ⟨cell, by simp [hc1], hc2⟩

theorem mem_writeChannel {arr : Arr3} {img : Img2} {c : Nat}
    {row2 : List (List ℚ)} (h : row2 ∈ writeChannel arr c img) :
    ∃ row ∈ arr, ∃ irow ∈ img,
      row2 = List.zipWith (fun cell v => cell.set c v) row irow := by
  induction arr generalizing img with
  | nil => simp [writeChannel] at h
  | cons a t ih =>
    cases img with
    | nil => simp [writeChannel] at h
    | cons b s =>
      simp only [writeChannel, List.zipWith_cons_cons, List.mem_cons] at h
      rcases h with h | h
      · exact ⟨a, by simp, b, by simp, h⟩
      · obtain ⟨row, h1, irow, h2, h3⟩ := @ih s h
        exact ⟨row, by simp [h1], irow, by simp [h2], h3⟩

theorem dims3_writeChannel {arr : Arr3} {img : Img2} {H W C c : Nat}
    (hd : Dims3 arr H W C) (hlen : img.length = H)
    (hiW : ∀ irow ∈ img, irow.length = W) :
    Dims3 (writeChannel arr c img) H W C := by
  obtain ⟨h1, h2⟩ := hd
  refine ⟨by simp [writeChannel, List.length_zipWith, h1, hlen], ?_⟩
  intro row2 hrow2
  obtain ⟨row, hrow, irow, hirow, rfl⟩ := mem_writeChannel hrow2
  obtain ⟨hrW, hrC⟩ := h2 row hrow
  refine ⟨by simp [List.length_zipWith, hrW, hiW irow hirow], ?_⟩
  intro cell2 hcell2
  obtain ⟨cell, hcell, hlen2⟩ := mem_zipWith_set _ _ _ _ hcell2
  rw [hlen2]
  exact hrC cell hcell

theorem getChannel_writeChannel_self {arr : Arr3} {img : Img2} {c W : Nat}
    (hlen : arr.length = img.length)
    (hiW : ∀ irow ∈ img, irow.length = W)
    (hW : ∀ row ∈ arr, row.length = W)
    (hC : ∀ row ∈ arr, ∀ cell ∈ row, c < cell.length) :
    getChannel (writeChannel arr c img) c = img := by
  induction arr generalizing img with
  | nil =>
    cases img with
    | nil => rfl
    | cons b s => simp at hlen
  | cons a t ih =>
    cases img with
    | nil => simp at hlen
    | cons b s =>
      simp only [writeChannel, getChannel, List.zipWith_cons_cons,
        List.map_cons, List.cons.injEq]
      constructor
      · exact row_write_read_self a b c
          (by rw [hW a (by simp), hiW b (by simp)]) (hC a (by simp))
      · have := @ih s (by simpa using hlen)
          (fun irow hirow => hiW irow (by simp [hirow]))
          (fun row hrow => hW row (by simp [hrow]))
          (fun row hrow cell hcell => hC row (by simp [hrow]) cell hcell)
        simpa [writeChannel, getChannel] using this

theorem getChannel_writeChannel_ne {arr : Arr3} {img : Img2} {c j W : Nat}
    (hlen : arr.length = img.length)
    (hiW : ∀ irow ∈ img, irow.length = W)
    (hW : ∀ row ∈ arr, row.length = W)
    (hne : j ≠ c) :
    getChannel (writeChannel arr c img) j = getChannel arr j := by
  induction arr generalizing img with
  | nil =>
    cases img with
    | nil => rfl
    | cons b s => simp at hlen
  | cons a t ih =>
    cases img with
    | nil => simp at hlen
    | cons b s =>
      simp only [writeChannel, getChannel, List.zipWith_cons_cons,
        List.map_cons, List.cons.injEq]
      constructor
      · exact row_write_read_ne a b c j
          (by rw [hW a (by simp), hiW b (by simp)]) hne
      · have := @ih s (by simpa using hlen)
          (fun irow hirow => hiW irow (by simp [hirow]))
          (fun row hrow => hW row (by simp [hrow]))
        simpa [writeChannel, getChannel] using this

theorem intRange_length (lo hi : Int) :
    (intRange lo hi).length = (hi - lo).toNat := by
  unfold intRange
  rw [List.length_map, List.length_range]

theorem intRange_getD (lo hi : Int) (i : Nat) (h : i < (hi - lo).toNat) :
    (intRange lo hi).getD i 0 = lo + i := by
  unfold intRange
  rw [List.getD_eq_getElem?_getD, List.getElem?_map,
    List.getElem?_range (by simpa using h)]
  rfl

theorem mkSliceDataset_ok_inv {im_ids : List String} {in_dir : String}
    {cat : Catalog} {tr pre : Option Tf} {dist : List ℚ} {d : SliceDataset}
    (h : mkSliceDataset im_ids in_dir cat tr pre dist = .ok d) :
    d.im_ids = im_ids ∧ d.pos_slice_dict = cat ∧ d.transforms = tr ∧
      d.preprocessing = pre ∧ d.sampling_distribution = dist ∧
      dist.sum = 1 ∧
      ∃ key m t, cat = (key, m) :: t ∧ d.classes = m.map Prod.fst := by
  unfold mkSliceDataset at h
  by_cases hs : dist.sum = 1
  · rw [if_pos hs] at h
    rcases cat with _ | ⟨⟨key, m⟩, t⟩
    · exact Except.noConfusion h
    · cases Except.ok.inj h
      exact ⟨rfl, rfl, rfl, rfl, rfl, hs, key, m, t, rfl, rfl⟩
  · rw [if_neg hs] at h
    exact Except.noConfusion h

theorem odd_window_span {ws : Int} (hodd : ws.emod 2 = 1) :
    2 * ((ws - 1).fdiv 2) + 1 = ws := by
  rw [Int.fdiv_eq_ediv _ (by norm_num)]
  have hodd2 : ws % 2 = 1 := hodd
  omega

theorem fillLoop_spec (fs : FS) (case_raw : String) (H W C : Nat)
    (sl : List Int) (n : Nat) (arr : Arr3)
    (hd : Dims3 arr H W C) (hnC : n + sl.length ≤ C)
    (hsh : ∀ s ∈ sl, ∀ img, fs.imaging case_raw s = some img →
      shapeOk img H W = true) :
    ∃ res, fillLoop fs case_raw H W (List.enumFrom n sl) arr = .ok res ∧
      Dims3 res H W C ∧
      (∀ j, j < n → getChannel res j = getChannel arr j) ∧
      (∀ i, i < sl.length →
        getChannel res (n + i) =
          match fs.imaging case_raw (sl.getD i 0) with
          | some img => img
          | none => getChannel arr (n + i)) := by
  induction sl generalizing n arr with
  | nil =>
    exact ⟨arr, rfl, hd, fun j _ => rfl, fun i hi => absurd hi (by simp)⟩
  | cons s rest ih =>
    rcases himg : fs.imaging case_raw s with _ | img
    · have h1 : fillStep fs case_raw H W arr (n, s) = .ok arr := by
        simp [fillStep, himg]
      obtain ⟨res, hres, hdres, hfr, hval⟩ := ih (n + 1) arr hd
        (by simp only [List.length_cons] at hnC; omega)
        (fun s2 hs2 img2 h2 => hsh s2 (by simp [hs2]) img2 h2)
      refine ⟨res, ?_, hdres, ?_, ?_⟩
      · simp only [fillLoop, List.enumFrom, List.foldlM, h1, except_bind_ok]
        exact hres
      · intro j hj
        exact hfr j (by omega)
      · intro i hi
        cases i with
        | zero =>
          simp only [List.getD_cons_zero, himg, Nat.add_zero]
          exact hfr n (by omega)
        | succ i2 =>
          have hv := hval i2 (by simpa using hi)
          have harith : n + (i2 + 1) = n + 1 + i2 := by omega
          rw [harith, List.getD_cons_succ]
          exact hv
    · have hshape := hsh s (by simp) img himg
      have h1 : fillStep fs case_raw H W arr (n, s) =
          .ok (writeChannel arr n img) := by
        simp [fillStep, himg, hshape]
      obtain ⟨hiH, hiW⟩ := (shapeOk_eq_true_iff img H W).mp hshape
      have hd2 : Dims3 (writeChannel arr n img) H W C :=
        dims3_writeChannel hd hiH hiW
      have hlen2 : arr.length = img.length := by rw [hd.1, hiH]
      have hW2 : ∀ row ∈ arr, row.length = W := fun row hrow => (hd.2 row hrow).1
      obtain ⟨res, hres, hdres, hfr, hval⟩ := ih (n + 1) (writeChannel arr n img)
        hd2 (by simp only [List.length_cons] at hnC; omega)
        (fun s2 hs2 img2 h2 => hsh s2 (by simp [hs2]) img2 h2)
      refine ⟨res, ?_, hdres, ?_, ?_⟩
      · simp only [fillLoop, List.enumFrom, List.foldlM, h1, except_bind_ok]
        exact hres
      · intro j hj
        rw [hfr j (by omega)]
        exact getChannel_writeChannel_ne hlen2 hiW hW2 (by omega)
      · intro i hi
        cases i with
        | zero =>
          simp only [List.getD_cons_zero, himg, Nat.add_zero]
          rw [hfr n (by omega)]
          refine getChannel_writeChannel_self hlen2 hiW hW2 ?_
          intro row hrow cell hcell
          rw [(hd.2 row hrow).2 cell hcell]
          simp only [List.length_cons] at hnC
          omega
        | succ i2 =>
          have hv := hval i2 (by simpa using hi)
          have harith : n + (i2 + 1) = n + 1 + i2 := by omega
          rw [harith, List.getD_cons_succ]
          rcases himg2 : fs.imaging case_raw (rest.getD i2 0) with _ | img2
          · rw [himg2] at hv
            simp only at hv
            rw [hv]
            exact getChannel_writeChannel_ne hlen2 hiW hW2 (by omega)
          · rw [himg2] at hv
            simpa using hv

theorem mkPseudoSliceDataset_ok_inv {im_ids : List String} {in_dir : String}
    {cat : Catalog} {tr pre : Option Tf} {dist : List ℚ} {ws : Int}
    {pd : PseudoSliceDataset}
    (h : mkPseudoSliceDataset im_ids in_dir cat tr pre dist ws = .ok pd) :
    mkSliceDataset im_ids in_dir cat tr pre dist = .ok pd.toSliceDataset ∧
      pd.num_pseudo_slices = ws ∧ ws.emod 2 = 1 := by
  unfold mkPseudoSliceDataset at h
  rcases hb : mkSliceDataset im_ids in_dir cat tr pre dist with e | base <;>
    rw [hb] at h
  · rw [except_bind_error] at h
    exact Except.noConfusion h
  · rw [except_bind_ok] at h
    by_cases ho : ws.emod 2 = 1
    · rw [if_pos ho] at h
      cases Except.ok.inj h
      exact ⟨rfl, rfl, ho⟩
    · rw [if_neg ho] at h
      exact Except.noConfusion h

theorem mk_d7 :
    mkSliceDataset ["case01"] "data" cat7 none none [0, 0, 1] = .ok d7 := by
  unfold mkSliceDataset
  rw [if_pos (by norm_num)]
  rfl

theorem pyGetElem_error {α : Type} (l : List α) (i : Int) (e : DsError)
    (h : pyGetElem l i = .error e) : e = .indexError := by
  unfold pyGetElem at h
  by_cases hi : i < 0
  · simp only [if_pos hi] at h
    by_cases hj : (0 : Int) ≤ i + l.length
    · simp only [if_pos hj] at h
      rcases hg : l.get? (i + (l.length : Int)).toNat with _ | a <;>
        rw [hg] at h
      · exact (Except.error.inj h).symm
      · exact Except.noConfusion h
    · simp only [if_neg hj] at h
      exact (Except.error.inj h).symm
  · simp only [if_neg hi] at h
    by_cases hj : (0 : Int) ≤ i
    · simp only [if_pos hj] at h
      rcases hg : l.get? i.toNat with _ | a <;> rw [hg] at h
      · exact (Except.error.inj h).symm
      · exact Except.noConfusion h
    · simp only [if_neg hj] at h
      exact (Except.error.inj h).symm

theorem d7_draw (r : ℚ) (k : Nat) (hr0 : 0 ≤ r) (hr1 : r < 1) :
    np_choice_weighted d7.classes d7.sampling_distribution r = .ok "tumor" ∧
    d7.get_slice_idx r k "case01" = .ok 7 := by
  have h1 : ¬ (r < (0 : ℚ)) := not_lt.mpr hr0
  have hidx : categoricalIdx [0, 0, 1] r = 2 := by
    simp only [categoricalIdx, sub_zero, if_neg h1, if_pos hr1]
  have hw : np_choice_weighted d7.classes d7.sampling_distribution r =
      .ok "tumor" := by
    show np_choice_weighted ["bg", "kidney", "tumor"] [0, 0, 1] r = .ok "tumor"
    unfold np_choice_weighted
    rw [if_neg (by norm_num), if_neg (by decide), hidx]
    rfl
  refine ⟨hw, ?_⟩
  unfold SliceDataset.get_slice_idx
  rw [hw, except_bind_ok]
  have hd1 : dictGet d7.pos_slice_dict "case01" =
      .ok [("bg", [0, 1, 2]), ("kidney", [5, 6]), ("tumor", [7])] := rfl
  rw [hd1, except_bind_ok]
  have hd2 : dictGet
      ([("bg", [0, 1, 2]), ("kidney", [5, 6]), ("tumor", [7])] : ClassMap)
      "tumor" = .ok ([7] : List Int) := rfl
  rw [hd2, except_bind_ok]
  simp [np_choice_uniform, Nat.mod_one]

theorem d7_load_eval :
    d7.load_slices fsEx 0 0 "case01" = .ok ([[[1]]], [[[2]]]) := by
  unfold SliceDataset.load_slices
  rw [(d7_draw 0 0 (le_refl 0) (by norm_num)).2, except_bind_ok]
  have h1 : np_load (fsEx.imaging "case01" 7) = .ok [[1]] := rfl
  have h2 : np_load (fsEx.segmentation "case01" 7) = .ok [[2]] := rfl
  rw [h1, except_bind_ok, h2, except_bind_ok]
  rfl

theorem d7_getItem_eval :
    d7.getItem fsEx 0 0 0 = .ok (⟨.float, [[[1]]]⟩, ⟨.long, [[[2]]]⟩) := by
  unfold SliceDataset.getItem
  have hp : pyGetElem d7.im_ids 0 = .ok "case01" := rfl
  rw [hp, except_bind_ok, d7_load_eval, except_bind_ok]
  rfl

theorem pd1_load_eval :
    pd1.load_slices fsEx 0 0 "case01" = .ok (some ([[[1]]], [[[2]]])) := by
  unfold PseudoSliceDataset.load_slices
  have hg : pd1.toSliceDataset.get_slice_idx 0 0 "case01" = .ok 7 :=
    (d7_draw 0 0 (le_refl 0) (by norm_num)).2
  rw [hg]
  simp only [except_bind_ok]
  have hx : np_load (fsEx.imaging "case01" 7) = .ok [[1]] := rfl
  have hy : np_load (fsEx.segmentation "case01" 7) = .ok [[2]] := rfl
  rw [hx]
  simp only [except_bind_ok]
  rw [hy]
  simp only [except_bind_ok]
  rw [if_pos (show pd1.num_pseudo_slices = 1 from rfl)]
  rfl

/-- C5: dataset construction raises the configuration (assertion) error
exactly when the sampling distribution does not sum to exactly 1; when the
sum is exactly 1 (and the catalog has at least one entry, so that deriving
the class list succeeds) construction succeeds. -/
theorem sampling_sum_validation (im_ids : List String) (in_dir : String)
    (cat : Catalog) (tr pre : Option Tf) (dist : List ℚ) :
    (mkSliceDataset im_ids in_dir cat tr pre dist = .error .assertionError ↔
      dist.sum ≠ 1) ∧
    (dist.sum = 1 → cat ≠ [] →
      (mkSliceDataset im_ids in_dir cat tr pre dist).isOk = true) := by
  constructor
  · constructor
    · intro h hs
      unfold mkSliceDataset at h
      rw [if_pos hs] at h
      rcases cat with _ | ⟨⟨key, m⟩, t⟩
      · exact absurd (Except.error.inj h) (by simp)
      · exact Except.noConfusion h
    · intro hs
      unfold mkSliceDataset
      rw [if_neg hs]
  · intro hs hc
    unfold mkSliceDataset
    rw [if_pos hs]
    rcases cat with _ | ⟨⟨key, m⟩, t⟩
    · exact absurd rfl hc
    · rfl

/-- Witness for C5: a singleton distribution summing to 9/10 or 11/10 fails
the construction assertion; one summing to exactly 1 constructs. -/
theorem sampling_sum_validation_w :
    mkSliceDataset ["c"] "d" [("c", [("bg", [0])])] none none [9/10] =
        .error .assertionError ∧
    mkSliceDataset ["c"] "d" [("c", [("bg", [0])])] none none [11/10] =
        .error .assertionError ∧
    (mkSliceDataset ["c"] "d" [("c", [("bg", [0])])] none none [1]).isOk =
        true := by
  refine ⟨?_, ?_, ?_⟩
  · exact (sampling_sum_validation _ _ _ _ _ _).1.mpr (by norm_num)
  · exact (sampling_sum_validation _ _ _ _ _ _).1.mpr (by norm_num)
  · exact (sampling_sum_validation _ _ _ _ _ _).2 (by norm_num) (by simp)

/-- C6: given a valid base configuration (distribution summing to 1,
non-empty catalog), pseudo-volume construction raises the assertion error
for every even window size and succeeds for every odd one. -/
theorem pseudo_window_odd_validation (im_ids : List String) (in_dir : String)
    (cat : Catalog) (tr pre : Option Tf) (dist : List ℚ) (ws : Int)
    (hsum : dist.sum = 1) (hcat : cat ≠ []) :
    (ws.emod 2 = 0 →
      mkPseudoSliceDataset im_ids in_dir cat tr pre dist ws =
        .error .assertionError) ∧
    (ws.emod 2 = 1 →
      (mkPseudoSliceDataset im_ids in_dir cat tr pre dist ws).isOk = true) := by
  have hbase : ∃ d, mkSliceDataset im_ids in_dir cat tr pre dist = .ok d := by
    unfold mkSliceDataset
    rw [if_pos hsum]
    rcases cat with _ | ⟨⟨key, m⟩, t⟩
    · exact absurd rfl hcat
    · exact ⟨_, rfl⟩
  obtain ⟨d, hd⟩ := hbase
  unfold mkPseudoSliceDataset
  rw [hd]
  simp only [except_bind_ok]
  constructor
  · intro h0
    rw [if_neg (fun h1 => by rw [h0] at h1; exact absurd h1 (by norm_num))]
  · intro h1
    rw [if_pos h1]
    rfl

/-- Witness for C6: window sizes 2, 4, 6 are rejected; 1, 3, 5, 7 are
accepted, over the `cat7` configuration. -/
theorem pseudo_window_odd_validation_w :
    mkPseudoSliceDataset ["case01"] "data" cat7 none none [0, 0, 1] 2 =
        .error .assertionError ∧
    mkPseudoSliceDataset ["case01"] "data" cat7 none none [0, 0, 1] 4 =
        .error .assertionError ∧
    mkPseudoSliceDataset ["case01"] "data" cat7 none none [0, 0, 1] 6 =
        .error .assertionError ∧
    (mkPseudoSliceDataset ["case01"] "data" cat7 none none [0, 0, 1] 1).isOk ∧
    (mkPseudoSliceDataset ["case01"] "data" cat7 none none [0, 0, 1] 3).isOk ∧
    (mkPseudoSliceDataset ["case01"] "data" cat7 none none [0, 0, 1] 5).isOk ∧
    (mkPseudoSliceDataset ["case01"] "data" cat7 none none [0, 0, 1] 7).isOk := by
  have h := fun ws => pseudo_window_odd_validation ["case01"] "data" cat7
    none none [0, 0, 1] ws (by norm_num) (by simp [cat7])
  exact ⟨(h 2).1 (by decide), (h 4).1 (by decide), (h 6).1 (by decide),
    (h 1).2 (by decide), (h 3).2 (by decide), (h 5).2 (by decide),
    (h 7).2 (by decide)⟩

/-- C7: with catalog `cat7` and distribution [0, 0, 1], every draw for
case01 selects the class "tumor" and slice index 7, for every state of the
random source (any categorical variate in [0, 1) and any uniform draw). -/
theorem tumor_only_draw_deterministic :
    mkSliceDataset ["case01"] "data" cat7 none none [0, 0, 1] = .ok d7 ∧
    ∀ r : ℚ, ∀ k : Nat, 0 ≤ r → r < 1 →
      np_choice_weighted d7.classes d7.sampling_distribution r = .ok "tumor" ∧
      d7.get_slice_idx r k "case01" = .ok 7 := by
  refine ⟨mk_d7, ?_⟩
  intro r k hr0 hr1
  have h1 : ¬ (r < (0 : ℚ)) := not_lt.mpr hr0
  have hidx : categoricalIdx [0, 0, 1] r = 2 := by
    simp only [categoricalIdx, sub_zero, if_neg h1, if_pos hr1]
  have hw : np_choice_weighted d7.classes d7.sampling_distribution r =
      .ok "tumor" := by
    show np_choice_weighted ["bg", "kidney", "tumor"] [0, 0, 1] r = .ok "tumor"
    unfold np_choice_weighted
    rw [if_neg (by norm_num), if_neg (by decide), hidx]
    rfl
  refine ⟨hw, ?_⟩
  unfold SliceDataset.get_slice_idx
  rw [hw, except_bind_ok]
  have hd1 : dictGet d7.pos_slice_dict "case01" =
      .ok [("bg", [0, 1, 2]), ("kidney", [5, 6]), ("tumor", [7])] := rfl
  rw [hd1, except_bind_ok]
  have hd2 : dictGet
      ([("bg", [0, 1, 2]), ("kidney", [5, 6]), ("tumor", [7])] : ClassMap)
      "tumor" = .ok ([7] : List Int) := rfl
  rw [hd2, except_bind_ok]
  simp [np_choice_uniform, Nat.mod_one]

/-- Witness for C7: the draw at the concrete random state (r = 0, k = 5)
selects slice 7. -/
theorem tumor_only_draw_deterministic_w :
    (0 : ℚ) ≤ 0 ∧ (0 : ℚ) < 1 ∧ d7.get_slice_idx 0 5 "case01" = .ok 7 :=
  ⟨le_refl 0, by norm_num,
    (tumor_only_draw_deterministic.2 0 5 (le_refl 0) (by norm_num)).2⟩

/-- C8: every successful `__getitem__` returns a float-dtype image tensor
and a long-dtype mask tensor, and the array-to-tensor conversion step passes
a value that is already a tensor through unchanged. -/
theorem getItem_tensor_types (d : SliceDataset) (fs : FS) (r : ℚ) (k : Nat)
    (i : Int) (x y : Tensor)
    (h : d.getItem fs r k i = .ok (x, y)) :
    x.dt = .float ∧ y.dt = .long ∧
      ∀ t : Tensor, toTensorIfArray (.tensor t) = t := by
  unfold SliceDataset.getItem at h
  rcases hc : pyGetElem d.im_ids i with e | case_id <;> rw [hc] at h
  · rw [except_bind_error] at h
    exact Except.noConfusion h
  · rw [except_bind_ok] at h
    rcases hl : d.load_slices fs r k case_id with e | pair <;> rw [hl] at h
    · rw [except_bind_error] at h
      exact Except.noConfusion h
    · rw [except_bind_ok] at h
      obtain ⟨xa, ya⟩ := pair
      injection h with h2
      injection h2 with hx hy
      refine ⟨?_, ?_, fun t => rfl⟩
      · rw [← hx]
        rfl
      · rw [← hy]
        rfl

/-- Witness for C8: a concrete successful access on `d7`/`fsEx` produces the
float/long pair. -/
theorem getItem_tensor_types_w :
    d7.getItem fsEx 0 0 0 = .ok (⟨.float, [[[1]]]⟩, ⟨.long, [[[2]]]⟩) ∧
    (⟨.float, [[[1]]]⟩ : Tensor).dt = .float ∧
    (⟨.long, [[[2]]]⟩ : Tensor).dt = .long := by
  have h := d7_getItem_eval
  obtain ⟨h1, h2, -⟩ := getItem_tensor_types d7 fsEx 0 0 0 _ _ h
  exact ⟨h, h1, h2⟩

/-- C4: with window size 1, the pseudo-volume loader returns exactly the
single-slice loader's result (same shapes, same content, same errors). -/
theorem pseudo_ws1_refines_single (d : PseudoSliceDataset) (fs : FS) (r : ℚ)
    (k : Nat) (case_raw : String) (h1 : d.num_pseudo_slices = 1) :
    d.load_slices fs r k case_raw =
      Except.map some (d.toSliceDataset.load_slices fs r k case_raw) := by
  unfold PseudoSliceDataset.load_slices SliceDataset.load_slices
  rcases d.toSliceDataset.get_slice_idx r k case_raw with e | si
  · rfl
  · simp only [except_bind_ok]
    rcases np_load (fs.imaging case_raw si) with e | xv
    · rfl
    · simp only [except_bind_ok]
      rcases np_load (fs.segmentation case_raw si) with e | yv
      · rfl
      · simp only [except_bind_ok]
        simp [h1, Except.map, pure, Except.pure]

/-- Witness for C4: over `d7`/`fsEx` with window size 1, both loaders return
the same pair. -/
theorem pseudo_ws1_refines_single_w :
    pd1.num_pseudo_slices = 1 ∧
    pd1.load_slices fsEx 0 0 "case01" =
      Except.map some (pd1.toSliceDataset.load_slices fsEx 0 0 "case01") :=
  ⟨rfl, pseudo_ws1_refines_single pd1 fsEx 0 0 "case01" rfl⟩

/-- Helper: under a valid base configuration and an odd window size, the
pseudo-volume constructor succeeds. -/
theorem mkPseudo_ok_aux (im_ids : List String) (in_dir : String)
    (cat : Catalog) (tr pre : Option Tf) (dist : List ℚ) (ws : Int)
    (hsum : dist.sum = 1) (hcat : cat ≠ []) (hodd : ws.emod 2 = 1) :
    (mkPseudoSliceDataset im_ids in_dir cat tr pre dist ws).isOk = true := by
  have hbase : ∃ d, mkSliceDataset im_ids in_dir cat tr pre dist = .ok d := by
    unfold mkSliceDataset
    rw [if_pos hsum]
    rcases cat with _ | ⟨⟨key, m⟩, t⟩
    · exact absurd rfl hcat
    · exact ⟨_, rfl⟩
  obtain ⟨d, hd⟩ := hbase
  unfold mkPseudoSliceDataset
  rw [hd]
  simp only [except_bind_ok]
  rw [if_pos hodd]
  rfl

/-- C10: a negative odd `num_pseudo_slices` (Python `-3 % 2 == 1`) passes
the oddness assertion, so construction succeeds; a subsequent `load_slices`
that reads the center slice successfully falls through both window branches
and returns `None` instead of an (image, mask) pair. -/
theorem negative_odd_window (im_ids : List String) (in_dir : String)
    (cat : Catalog) (tr pre : Option Tf) (dist : List ℚ) (ws : Int)
    (pd : PseudoSliceDataset) (hsum : dist.sum = 1) (hcat : cat ≠ [])
    (hneg : ws < 0) (hodd : ws.emod 2 = 1) :
    (mkPseudoSliceDataset im_ids in_dir cat tr pre dist ws).isOk = true ∧
    (mkPseudoSliceDataset im_ids in_dir cat tr pre dist ws = .ok pd →
      ∀ fs : FS, ∀ r : ℚ, ∀ k : Nat, ∀ case_raw : String, ∀ center : Int,
        ∀ cimg cmask : Img2,
        pd.toSliceDataset.get_slice_idx r k case_raw = .ok center →
        fs.imaging case_raw center = some cimg →
        fs.segmentation case_raw center = some cmask →
        pd.load_slices fs r k case_raw = .ok none) := by
  refine ⟨mkPseudo_ok_aux im_ids in_dir cat tr pre dist ws hsum hcat hodd, ?_⟩
  intro hmk fs r k case_raw center cimg cmask hidx hcx hcy
  obtain ⟨-, hws, -⟩ := mkPseudoSliceDataset_ok_inv hmk
  unfold PseudoSliceDataset.load_slices
  rw [hidx]
  simp only [except_bind_ok]
  have hxl : np_load (fs.imaging case_raw center) = .ok cimg := by
    rw [hcx]
    rfl
  have hyl : np_load (fs.segmentation case_raw center) = .ok cmask := by
    rw [hcy]
    rfl
  rw [hxl]
  simp only [except_bind_ok]
  rw [hyl]
  simp only [except_bind_ok]
  rw [if_neg (by rw [hws]; omega), if_neg (by rw [hws]; omega)]
  rfl

/-- Witness for C10: window size -3 constructs successfully and `pdm3`
returns `None` from a load whose center slice exists. -/
theorem negative_odd_window_w :
    (mkPseudoSliceDataset ["case01"] "data" cat7 none none [0, 0, 1]
      (-3)).isOk = true ∧
    pdm3.load_slices fsEx 0 0 "case01" = .ok none := by
  have h := negative_odd_window ["case01"] "data" cat7 none none [0, 0, 1]
    (-3) pdm3 (by norm_num) (by simp [cat7]) (by norm_num) (by decide)
  have hmk : mkPseudoSliceDataset ["case01"] "data" cat7 none none [0, 0, 1]
      (-3) = .ok pdm3 := by
    unfold mkPseudoSliceDataset
    rw [mk_d7]
    simp only [except_bind_ok]
    rw [if_pos (by decide)]
    rfl
  refine ⟨h.1, ?_⟩
  exact h.2 hmk fsEx 0 0 "case01" 7 [[1]] [[2]]
    (d7_draw 0 0 (le_refl 0) (by norm_num)).2 rfl rfl

/-- C1 (amended): for both dataset variants, `__getitem__(i)` raises the
out-of-range IndexError exactly when `i` is outside [-length(), length()) -
numpy indexing accepts negative indices counting from the end.  In
particular `getItem(length())` raises IndexError for either variant, and
`getItem(length()-1)` succeeds whenever the variant's slice load succeeds.
The pseudo variant inherits `__getitem__` but dispatches to its overridden
`load_slices`. -/
theorem getItem_index_bounds (d : SliceDataset) (pd : PseudoSliceDataset)
    (fs : FS) (r : ℚ) (k : Nat) :
    (∀ i : Int, d.getItem fs r k i = .error .indexError ↔
      i < -(d.len : Int) ∨ (d.len : Int) ≤ i) ∧
    d.getItem fs r k (d.len : Int) = .error .indexError ∧
    (∀ case_id : String, ∀ pair : Arr3 × Arr3, 0 < d.len →
      d.im_ids.get? (d.len - 1) = some case_id →
      d.load_slices fs r k case_id = .ok pair →
      (d.getItem fs r k ((d.len : Int) - 1)).isOk = true) ∧
    (∀ i : Int, pd.getItem fs r k i = .error .indexError ↔
      i < -(pd.toSliceDataset.len : Int) ∨
        (pd.toSliceDataset.len : Int) ≤ i) ∧
    pd.getItem fs r k (pd.toSliceDataset.len : Int) = .error .indexError ∧
    (∀ case_id : String, ∀ pair : Arr3 × Arr3, 0 < pd.toSliceDataset.len →
      pd.toSliceDataset.im_ids.get? (pd.toSliceDataset.len - 1) =
        some case_id →
      pd.load_slices fs r k case_id = .ok (some pair) →
      (pd.getItem fs r k ((pd.toSliceDataset.len : Int) - 1)).isOk =
        true) := by
  have hiff : ∀ i : Int, d.getItem fs r k i = .error .indexError ↔
      i < -(d.len : Int) ∨ (d.len : Int) ≤ i := by
    intro i
    constructor
    · intro h
      by_contra hrange
      push_neg at hrange
      obtain ⟨hlo, hhi⟩ := hrange
      have hok : ∃ a, pyGetElem d.im_ids i = .ok a := by
        rcases hp : pyGetElem d.im_ids i with e | a
        · cases pyGetElem_error d.im_ids i e hp
          have := (pyGetElem_error_iff d.im_ids i).mp hp
          simp only [SliceDataset.len] at hlo hhi
          omega
        · exact ⟨a, rfl⟩
      obtain ⟨a, ha⟩ := hok
      unfold SliceDataset.getItem at h
      rw [ha, except_bind_ok] at h
      rcases hl : d.load_slices fs r k a with e | pair <;> rw [hl] at h
      · rw [except_bind_error] at h
        exact load_slices_ne_indexError d fs r k a
          (hl.trans (congrArg _ (Except.error.inj h)))
      · rw [except_bind_ok] at h
        obtain ⟨xa, ya⟩ := pair
        exact Except.noConfusion h
    · intro hout
      have hpy : pyGetElem d.im_ids i = .error .indexError :=
        (pyGetElem_error_iff d.im_ids i).mpr
          (by simpa [SliceDataset.len] using hout)
      unfold SliceDataset.getItem
      rw [hpy, except_bind_error]
  have hpiff : ∀ i : Int, pd.getItem fs r k i = .error .indexError ↔
      i < -(pd.toSliceDataset.len : Int) ∨
        (pd.toSliceDataset.len : Int) ≤ i := by
    intro i
    constructor
    · intro h
      by_contra hrange
      push_neg at hrange
      obtain ⟨hlo, hhi⟩ := hrange
      have hok : ∃ a, pyGetElem pd.toSliceDataset.im_ids i = .ok a := by
        rcases hp : pyGetElem pd.toSliceDataset.im_ids i with e | a
        · cases pyGetElem_error pd.toSliceDataset.im_ids i e hp
          have := (pyGetElem_error_iff pd.toSliceDataset.im_ids i).mp hp
          simp only [SliceDataset.len] at hlo hhi
          omega
        · exact ⟨a, rfl⟩
      obtain ⟨a, ha⟩ := hok
      unfold PseudoSliceDataset.getItem at h
      rw [ha, except_bind_ok] at h
      rcases hl : pd.load_slices fs r k a with e | res <;> rw [hl] at h
      · rw [except_bind_error] at h
        exact pseudo_load_slices_ne_indexError pd fs r k a
          (hl.trans (congrArg _ (Except.error.inj h)))
      · rw [except_bind_ok] at h
        rcases res with _ | pair
        · simp at h
        · obtain ⟨xa, ya⟩ := pair
          exact Except.noConfusion h
    · intro hout
      have hpy : pyGetElem pd.toSliceDataset.im_ids i = .error .indexError :=
        (pyGetElem_error_iff pd.toSliceDataset.im_ids i).mpr
          (by simpa [SliceDataset.len] using hout)
      unfold PseudoSliceDataset.getItem
      rw [hpy, except_bind_error]
  refine ⟨hiff, (hiff _).mpr (Or.inr (le_refl _)), ?_, hpiff,
    (hpiff _).mpr (Or.inr (le_refl _)), ?_⟩
  · intro case_id pair hpos hget hload
    have hcast : ((d.len : Int) - 1) = ((d.len - 1 : Nat) : Int) := by
      omega
    unfold SliceDataset.getItem
    rw [hcast, pyGetElem_ok_of_get? d.im_ids (d.len - 1) case_id hget,
      except_bind_ok, hload, except_bind_ok]
    obtain ⟨xa, ya⟩ := pair
    rfl
  · intro case_id pair hpos hget hload
    have hcast : ((pd.toSliceDataset.len : Int) - 1) =
        ((pd.toSliceDataset.len - 1 : Nat) : Int) := by
      omega
    unfold PseudoSliceDataset.getItem
    rw [hcast, pyGetElem_ok_of_get? pd.toSliceDataset.im_ids
      (pd.toSliceDataset.len - 1) case_id hget,
      except_bind_ok, hload, except_bind_ok]
    obtain ⟨xa, ya⟩ := pair
    rfl

/-- Counterexample for C1: with one case, the index -1 is outside
[0, length()) yet `__getitem__(-1)` succeeds (numpy negative indexing). -/
theorem getItem_negative_index_in_range :
    (-1 : Int) < 0 ∧ d7.len = 1 ∧
    d7.getItem fsEx 0 0 (-1) = .ok (⟨.float, [[[1]]]⟩, ⟨.long, [[[2]]]⟩) := by
  refine ⟨by norm_num, rfl, ?_⟩
  unfold SliceDataset.getItem
  have hp : pyGetElem d7.im_ids (-1) = .ok "case01" := rfl
  rw [hp, except_bind_ok, d7_load_eval, except_bind_ok]
  rfl

/-- Witness for C1: over `d7`/`fsEx` (and its pseudo wrapper `pd1`),
`getItem(length())` raises IndexError and `getItem(length()-1)` succeeds
for both variants. -/
theorem getItem_index_bounds_w :
    d7.getItem fsEx 0 0 1 = .error .indexError ∧
    (d7.getItem fsEx 0 0 0).isOk = true ∧
    pd1.getItem fsEx 0 0 1 = .error .indexError ∧
    (pd1.getItem fsEx 0 0 0).isOk = true := by
  obtain ⟨hiff, hlen, hsucc, hpiff, hplen, hpsucc⟩ :=
    getItem_index_bounds d7 pd1 fsEx 0 0
  refine ⟨(hiff 1).mpr (Or.inr (by norm_num [SliceDataset.len, d7])), ?_,
    (hpiff 1).mpr (Or.inr (by norm_num [SliceDataset.len, pd1, d7])), ?_⟩
  · exact hsucc "case01" ([[[1]]], [[[2]]])
      (by norm_num [SliceDataset.len, d7]) rfl d7_load_eval
  · exact hpsucc "case01" ([[[1]]], [[[2]]])
      (by norm_num [SliceDataset.len, pd1, d7]) rfl pd1_load_eval

/-- C2: over a constructed dataset, for a cataloged case whose per-class
lists are present and non-empty for every sampleable class (positive
probability), every draw (any categorical variate in [0, 1), any uniform
draw) selects a class from the derived class set and returns a slice index
that is an element of that class's list for that case. -/
theorem draw_in_catalog (im_ids : List String) (in_dir : String)
    (cat : Catalog) (tr pre : Option Tf) (dist : List ℚ) (d : SliceDataset)
    (hmk : mkSliceDataset im_ids in_dir cat tr pre dist = .ok d)
    (case_raw : String) (m : ClassMap)
    (hcase : cat.lookup case_raw = some m)
    (hlen : d.classes.length = dist.length)
    (hnn : ∀ q ∈ dist, 0 ≤ q)
    (hne : ∀ ci : Nat, ci < d.classes.length → 0 < dist.getD ci 0 →
      ∃ l, m.lookup (d.classes.getD ci "") = some l ∧ l ≠ [])
    (r : ℚ) (k : Nat) (hr0 : 0 ≤ r) (hr1 : r < 1) :
    d.classes.getD (categoricalIdx dist r) "" ∈ d.classes ∧
    ∃ l, m.lookup (d.classes.getD (categoricalIdx dist r) "") = some l ∧
      d.get_slice_idx r k case_raw = .ok (l.getD (k % l.length) 0) ∧
      l.getD (k % l.length) 0 ∈ l := by
  obtain ⟨him, hdict, htr, hpre, hdist, hsum, key, m0, t0, hcateq, hclasses⟩ :=
    mkSliceDataset_ok_inv hmk
  set ci := categoricalIdx dist r with hci_def
  have hrs : r < dist.sum := by rw [hsum]; exact hr1
  have hcilt2 : ci < dist.length := categoricalIdx_lt_length dist r hr0 hrs
  have hcilt : ci < d.classes.length := by omega
  have hpos : 0 < dist.getD ci 0 := categoricalIdx_getD_pos dist r hr0 hrs
  obtain ⟨l, hlook, hlne⟩ := hne ci hcilt hpos
  have hgc : d.classes.get? ci = some (d.classes.get ⟨ci, hcilt⟩) :=
    List.get?_eq_get hcilt
  have hgd : d.classes.getD ci "" = d.classes.get ⟨ci, hcilt⟩ := by
    rw [List.getD_eq_getElem?_getD, List.getElem?_eq_getElem hcilt]
    rfl
  have hmem : d.classes.getD ci "" ∈ d.classes := by
    rw [hgd]
    exact List.get_mem _ _ _
  have hall : (dist.all fun q => decide (0 ≤ q)) = true := by
    simp only [List.all_eq_true, decide_eq_true_eq]
    exact hnn
  have hw : np_choice_weighted d.classes d.sampling_distribution r =
      .ok (d.classes.getD ci "") := by
    unfold np_choice_weighted
    rw [hdist]
    rw [if_neg (by omega)]
    rw [if_neg (not_not_intro hall)]
    rw [← hci_def, hgc]
    exact congrArg Except.ok hgd.symm
  have hlpos : 0 < l.length := List.length_pos.mpr hlne
  have hklt : k % l.length < l.length := Nat.mod_lt k hlpos
  have hgetd : l.getD (k % l.length) 0 = l.get ⟨k % l.length, hklt⟩ := by
    rw [List.getD_eq_getElem?_getD, List.getElem?_eq_getElem hklt]
    rfl
  refine ⟨hmem, l, hlook, ?_, ?_⟩
  · unfold SliceDataset.get_slice_idx
    rw [hw, except_bind_ok]
    have hd1 : dictGet d.pos_slice_dict case_raw = .ok m := by
      unfold dictGet
      rw [hdict, hcase]
    rw [hd1, except_bind_ok]
    have hd2 : dictGet m (d.classes.getD ci "") = .ok l := by
      unfold dictGet
      rw [hlook]
    rw [hd2, except_bind_ok]
    unfold np_choice_uniform
    rw [dif_neg (by omega)]
    exact congrArg Except.ok hgetd.symm
  · rw [hgetd]
    exact List.get_mem _ _ _

/-- Witness for C2: on the `cat7` scenario with distribution [0, 0, 1] and
random state (r = 0, k = 5), the draw selects class "tumor" and returns 7,
an element of the tumor list. -/
theorem draw_in_catalog_w :
    "tumor" ∈ d7.classes ∧
    d7.get_slice_idx 0 5 "case01" = .ok 7 ∧ (7 : Int) ∈ ([7] : List Int) := by
  have h := draw_in_catalog ["case01"] "data" cat7 none none [0, 0, 1] d7
    mk_d7 "case01" [("bg", [0, 1, 2]), ("kidney", [5, 6]), ("tumor", [7])]
    rfl rfl (by norm_num)
    (by
      intro ci hci hpos
      have hci3 : ci < 3 := hci
      interval_cases ci
      · norm_num [List.getD_cons_zero] at hpos
      · norm_num [List.getD_cons_zero, List.getD_cons_succ] at hpos
      · exact ⟨[7], rfl, by simp⟩)
    0 5 (le_refl 0) (by norm_num)
  have hidx : categoricalIdx ([0, 0, 1] : List ℚ) 0 = 2 := by
    simp only [categoricalIdx, sub_zero,
      if_neg (by norm_num : ¬ ((0 : ℚ) < 0)),
      if_pos (by norm_num : (0 : ℚ) < 1)]
  rw [hidx] at h
  obtain ⟨hm, l, hl, hgs, hmem⟩ := h
  have hl2 : some ([7] : List Int) = some l := hl
  cases Option.some.inj hl2
  exact ⟨hm, hgs, hmem⟩

/-- C3: for window size above 1 (odd), the pseudo-volume load returns an
image buffer of shape (H, W, windowSize) with H, W taken from the center
image, in which channel j holds the on-disk array for neighbor index
center - halfWidth + j when that file exists and stays all-zero when it does
not, raising no error for missing neighbors; the mask is the center mask of
shape (H, W, 1). -/
theorem window_assembly (d : PseudoSliceDataset) (fs : FS) (r : ℚ) (k : Nat)
    (case_raw : String) (center : Int) (cimg cmask : Img2)
    (hgt : 1 < d.num_pseudo_slices) (hodd : d.num_pseudo_slices.emod 2 = 1)
    (hidx : d.toSliceDataset.get_slice_idx r k case_raw = .ok center)
    (hcx : fs.imaging case_raw center = some cimg)
    (hcy : fs.segmentation case_raw center = some cmask)
    (hsh : ∀ s : Int, ∀ img : Img2, fs.imaging case_raw s = some img →
      shapeOk img cimg.length (cimg.headD []).length = true) :
    ∃ x_arr : Arr3,
      d.load_slices fs r k case_raw = .ok (some (x_arr, addChannel cmask)) ∧
      Dims3 x_arr cimg.length (cimg.headD []).length
        d.num_pseudo_slices.toNat ∧
      ∀ j : Nat, j < d.num_pseudo_slices.toNat →
        getChannel x_arr j =
          match fs.imaging case_raw
              (center - (d.num_pseudo_slices - 1).fdiv 2 + j) with
          | some img => img
          | none => List.replicate cimg.length
              (List.replicate (cimg.headD []).length 0) := by
  have hspan : 2 * ((d.num_pseudo_slices - 1).fdiv 2) + 1 =
      d.num_pseudo_slices := odd_window_span hodd
  have hlenr : (intRange (center - (d.num_pseudo_slices - 1).fdiv 2)
      (center + (d.num_pseudo_slices - 1).fdiv 2 + 1)).length =
      d.num_pseudo_slices.toNat := by
    rw [intRange_length]
    omega
  obtain ⟨res, hres, hdim, hfr, hval⟩ := fillLoop_spec fs case_raw
    cimg.length (cimg.headD []).length d.num_pseudo_slices.toNat
    (intRange (center - (d.num_pseudo_slices - 1).fdiv 2)
      (center + (d.num_pseudo_slices - 1).fdiv 2 + 1))
    0
    (zeros3 cimg.length (cimg.headD []).length d.num_pseudo_slices.toNat)
    (dims3_zeros3 _ _ _)
    (by rw [hlenr]; omega)
    (fun s _ img h => hsh s img h)
  refine ⟨res, ?_, hdim, ?_⟩
  · unfold PseudoSliceDataset.load_slices
    rw [hidx]
    simp only [except_bind_ok]
    have hxl : np_load (fs.imaging case_raw center) = .ok cimg := by
      rw [hcx]
      rfl
    have hyl : np_load (fs.segmentation case_raw center) = .ok cmask := by
      rw [hcy]
      rfl
    rw [hxl]
    simp only [except_bind_ok]
    rw [hyl]
    simp only [except_bind_ok]
    rw [if_neg (by omega), if_pos hgt]
    have henum : ∀ lo2 hi2 : Int, (intRange lo2 hi2).enum =
        List.enumFrom 0 (intRange lo2 hi2) := fun lo2 hi2 => rfl
    rw [henum, hres]
    rfl
  · intro j hj
    have hv := hval j (by rw [hlenr]; exact hj)
    have hgd : (intRange (center - (d.num_pseudo_slices - 1).fdiv 2)
        (center + (d.num_pseudo_slices - 1).fdiv 2 + 1)).getD j 0 =
        center - (d.num_pseudo_slices - 1).fdiv 2 + j := by
      rw [intRange_getD]
      omega
    rw [hgd] at hv
    simp only [Nat.zero_add] at hv
    rcases himg : fs.imaging case_raw
        (center - (d.num_pseudo_slices - 1).fdiv 2 + j) with _ | img
    · rw [himg] at hv
      have hzero : getChannel res j =
          getChannel (zeros3 cimg.length (cimg.headD []).length
            d.num_pseudo_slices.toNat) j := hv
      rw [getChannel_zeros3] at hzero
      exact hzero
    · rw [himg] at hv
      exact hv

/-- Witness for C3: window size 3 over `fsWin2`, centered on slice 7 of
case01: channels 0 and 1 hold slices 6 and 7, channel 2 (slice 8, missing)
stays zero, and the mask is the center mask. -/
theorem window_assembly_w :
    pd3.load_slices fsWin2 0 0 "case01" =
      .ok (some ([[[6, 7, 0]]], [[[2]]])) ∧
    getChannel [[[6, 7, 0]]] 0 = [[6]] ∧
    getChannel [[[6, 7, 0]]] 1 = [[7]] ∧
    getChannel [[[6, 7, 0]]] 2 = [[0]] := by
  obtain ⟨x, hl, hdim, hch⟩ := window_assembly pd3 fsWin2 0 0 "case01" 7
    [[7]] [[2]] (by decide) (by decide)
    (d7_draw 0 0 (le_refl 0) (by norm_num)).2 rfl rfl
    (by
      intro s img h
      simp only [fsWin2] at h
      split at h
      · cases Option.some.inj h
        rfl
      · split at h
        · cases Option.some.inj h
          rfl
        · exact Option.noConfusion h)
  obtain ⟨hL0, hrows⟩ := hdim
  have hL : x.length = 1 := hL0
  rcases x with _ | ⟨row, t⟩
  · simp at hL
  · have ht : t = [] := by
      simp only [List.length_cons] at hL
      exact List.length_eq_zero.mp (by omega)
    subst ht
    obtain ⟨hrW0, hcells⟩ := hrows row (by simp)
    have hrW : row.length = 1 := hrW0
    rcases row with _ | ⟨cell, t2⟩
    · simp at hrW
    · have ht2 : t2 = [] := by
        simp only [List.length_cons] at hrW
        exact List.length_eq_zero.mp (by omega)
      subst ht2
      have hc3 : cell.length = 3 := hcells cell (by simp)
      rcases cell with _ | ⟨a, cell1⟩
      · simp at hc3
      · rcases cell1 with _ | ⟨b, cell2⟩
        · simp at hc3
        · rcases cell2 with _ | ⟨c, t3⟩
          · simp at hc3
          · have ht3 : t3 = [] := by
              simp only [List.length_cons] at hc3
              exact List.length_eq_zero.mp (by omega)
            subst ht3
            have h0 : ([[a]] : Img2) = [[6]] := hch 0 (by decide)
            have h1 : ([[b]] : Img2) = [[7]] := hch 1 (by decide)
            have h2 : ([[c]] : Img2) = [[0]] := hch 2 (by decide)
            simp only [List.cons.injEq, and_true] at h0 h1 h2
            rw [h0, h1, h2] at hl
            exact ⟨hl, rfl, rfl, rfl⟩

theorem get_slice_idxSt_spec (d : SliceDataset) (rng : Rng)
    (case_raw : String) :
    (d.get_slice_idxSt rng case_raw).2.1 = d ∧
    ((d.get_slice_idxSt rng case_raw).2.2 = ⟨rng.rs.tail, rng.ks⟩ ∨
     (d.get_slice_idxSt rng case_raw).2.2 = ⟨rng.rs.tail, rng.ks.tail⟩) := by
  constructor
  · unfold SliceDataset.get_slice_idxSt
    repeat first | rfl | split
  · unfold SliceDataset.get_slice_idxSt
    split
    · exact Or.inl rfl
    · split
      · exact Or.inl rfl
      · split
        · exact Or.inl rfl
        · exact Or.inr rfl

theorem load_slicesSt_snd (d : SliceDataset) (fs : FS) (rng : Rng)
    (case_raw : String) :
    (d.load_slicesSt fs rng case_raw).2 =
      (d.get_slice_idxSt rng case_raw).2 := by
  unfold SliceDataset.load_slicesSt
  split
  · rename_i e d1 rng1 heq
    rw [heq]
  · rename_i si d1 rng1 heq
    rw [heq]
    split
    · rfl
    · split
      · rfl
      · rfl

theorem load_slicesSt_spec (d : SliceDataset) (fs : FS) (rng : Rng)
    (case_raw : String) :
    (d.load_slicesSt fs rng case_raw).2.1 = d ∧
    ((d.load_slicesSt fs rng case_raw).2.2 = ⟨rng.rs.tail, rng.ks⟩ ∨
     (d.load_slicesSt fs rng case_raw).2.2 = ⟨rng.rs.tail, rng.ks.tail⟩) := by
  have hsnd := load_slicesSt_snd d fs rng case_raw
  obtain ⟨h1, h2⟩ := get_slice_idxSt_spec d rng case_raw
  constructor
  · rw [congrArg Prod.fst hsnd]
    exact h1
  · rw [congrArg Prod.snd hsnd]
    exact h2

theorem getItemSt_spec (d : SliceDataset) (fs : FS) (rng : Rng) (i : Int) :
    (d.getItemSt fs rng i).2.1 = d ∧
    ((d.getItemSt fs rng i).2.2 = rng ∨
     (d.getItemSt fs rng i).2.2 = ⟨rng.rs.tail, rng.ks⟩ ∨
     (d.getItemSt fs rng i).2.2 = ⟨rng.rs.tail, rng.ks.tail⟩) := by
  unfold SliceDataset.getItemSt
  split
  · exact ⟨rfl, Or.inl rfl⟩
  · rename_i cid hpe
    obtain ⟨hl1, hl2⟩ := load_slicesSt_spec d fs rng cid
    constructor
    · split
      · rename_i e d1 rng1 heq
        rw [heq] at hl1
        exact hl1
      · rename_i xa ya d1 rng1 heq
        rw [heq] at hl1
        exact hl1
    · split
      · rename_i e d1 rng1 heq
        rw [heq] at hl2
        exact Or.inr hl2
      · rename_i xa ya d1 rng1 heq
        rw [heq] at hl2
        exact Or.inr hl2

theorem pseudo_load_slicesSt_frame (d : PseudoSliceDataset) (fs : FS)
    (rng : Rng) (case_raw : String) :
    (d.load_slicesSt fs rng case_raw).2.1 = d := by
  obtain ⟨h1, -⟩ := get_slice_idxSt_spec d.toSliceDataset rng case_raw
  unfold PseudoSliceDataset.load_slicesSt
  split
  · rename_i e d1 rng1 heq
    rw [heq] at h1
    have h1b : d1 = d.toSliceDataset := h1
    subst h1b
    rfl
  · rename_i center d1 rng1 heq
    rw [heq] at h1
    have h1b : d1 = d.toSliceDataset := h1
    subst h1b
    repeat first | rfl | split

/-- C9: no operation after construction mutates the dataset state: length,
index drawing, slice loading (both variants) and item access all return the
dataset record unchanged, and an item access changes the random source only
by consuming values from the front of its streams. -/
theorem dataset_state_frame (d : SliceDataset) (pd : PseudoSliceDataset)
    (fs : FS) (rng : Rng) (case_raw : String) (i : Int) :
    d.lenSt rng = (d.im_ids.length, d, rng) ∧
    (d.get_slice_idxSt rng case_raw).2.1 = d ∧
    (d.load_slicesSt fs rng case_raw).2.1 = d ∧
    (d.getItemSt fs rng i).2.1 = d ∧
    (pd.load_slicesSt fs rng case_raw).2.1 = pd ∧
    ∃ n : Nat, ∃ o : Nat,
      (d.getItemSt fs rng i).2.2 = ⟨rng.rs.drop n, rng.ks.drop o⟩ := by
  obtain ⟨hg1, -⟩ := get_slice_idxSt_spec d rng case_raw
  obtain ⟨hl1, -⟩ := load_slicesSt_spec d fs rng case_raw
  obtain ⟨hi1, hi2⟩ := getItemSt_spec d fs rng i
  refine ⟨rfl, hg1, hl1, hi1,
    pseudo_load_slicesSt_frame pd fs rng case_raw, ?_⟩
  rcases hi2 with h | h | h
  · exact ⟨0, 0, by rw [h]; rfl⟩
  · exact ⟨1, 0, by rw [h]; simp [List.drop_one]⟩
  · exact ⟨1, 1, by rw [h]; simp [List.drop_one]⟩

end Kits19
